import Mathlib

/-!
Shallow embedding of the animation scheduler of `konvas-kit`:
the `Ticker` class (registry of named animation tasks, active subset,
virtual clock, preview loop) and the animated-image frame adapter
registered by `Image._startAnimation`.

JavaScript numbers that flow through the scheduler are modelled by
`JSNum` (`nan` for NaN, `int n` for an integral value; every number the
scheduler manipulates in the source is an integral millisecond count).
A callback may return a number or `undefined` (`JSVal`), or throw.

Task callbacks are defunctionalised: a task's `loop` is a pure function
of the ticker's `elapsedTime` and the task's own closure state, and
reports the reentrant `stopAnimation` calls it performed (`stops`).
This mirrors the repository's consumers (the `Image` adapter), whose
only reentrant scheduler call from inside `loop` is `stopAnimation`.
Because callbacks never insert during iteration, iterating a snapshot of
`activeAnimations` while re-checking membership is equivalent to the
source's live `for (const id of this.activeAnimations)` Set iteration.

Timer and render-sink side effects (`clearTimeout`, `setTimeout`,
`layer.drawScene`) are recorded in an effect trace, and `Date.now()` is
passed in as an explicit `now` argument.  The browser/headless branch
`typeof window !== 'undefined'` is the explicit `hasWindow` flag.
-/

/-- A JavaScript number as used by the scheduler: NaN or an integral value. -/
inductive JSNum where
  | nan
  | int (n : ℤ)
  deriving DecidableEq

/-- A value returned by an animation callback: a number or `undefined`. -/
inductive JSVal where
  | num (x : JSNum)
  | undef
  deriving DecidableEq

/-- JS addition on numbers: NaN is absorbing. -/
def jadd : JSNum → JSNum → JSNum
  | .int a, .int b => .int (a + b)
  | _, _ => .nan

/-- Binary `Math.min`: NaN is absorbing. -/
def jmin : JSNum → JSNum → JSNum
  | .int a, .int b => .int (min a b)
  | _, _ => .nan

/-- JS subtraction on numbers: NaN is absorbing. -/
def jsub : JSNum → JSNum → JSNum
  | .int a, .int b => .int (a - b)
  | _, _ => .nan

/-- JS `>=` comparison: any comparison involving NaN is false. -/
def jge : JSNum → JSNum → Bool
  | .int a, .int b => decide (b ≤ a)
  | _, _ => false

/-- Numeric coercion applied by `Math.min` to its arguments:
`undefined` coerces to NaN. -/
def toNum : JSVal → JSNum
  | .num x => x
  | .undef => .nan

/-- `Math.min(...requestedTimes)` over a non-empty argument list
(the `[]` case is unreachable in `moveForward`, which tests emptiness first). -/
def jsMinimum : List JSVal → JSNum
  | [] => .nan
  | v :: vs => vs.foldl (fun acc w => jmin acc (toNum w)) (toNum v)

/-- Whether a callback-returned value is a nonnegative number. -/
def jsNonneg : JSVal → Bool
  | .num (.int n) => decide (0 ≤ n)
  | _ => false

/-- Outcome of one invocation of a task's `loop` callback:
it returns a JS value or throws. -/
inductive LoopResult where
  | ok (v : JSVal)
  | exn
  deriving DecidableEq

/-- Everything one invocation of a `loop` callback does: its result, its
updated closure state, and the reentrant `stopAnimation` calls it made
(in order), the only scheduler reentry the repository's tasks perform. -/
structure LoopOut (σ : Type) where
  result : LoopResult
  state : σ
  stops : List String

/-- A registered animation (the source's `Animation` record `{ loop, reset?,
metadata }`) together with the mutable closure state its callbacks act on. -/
structure Animation (σ : Type) where
  loop : JSNum → σ → LoopOut σ
  reset : Option (σ → σ)
  metadata : List (String × String)
  state : σ

/-- The `Ticker` state: `animations` is the insertion-ordered `Map`
(registry), `activeAnimations` the insertion-ordered `Set` (active subset).
The pending `previewTimeout` handle is represented through the effect
trace rather than stored. -/
structure Ticker (σ : Type) where
  animations : List (String × Animation σ)
  activeAnimations : List String
  elapsedTime : JSNum
  currentTime : Option JSNum
  previewStartTime : Option ℤ
  initDate : ℤ

/-- `Map.set`: replace in place if the key exists, else append. -/
def mapSet (id : String) (task : Animation σ) : List (String × Animation σ) → List (String × Animation σ)
  | [] => [(id, task)]
  | p :: rest => if p.1 = id then (id, task) :: rest else p :: mapSet id task rest

/-- `Map.get`. -/
def lookupTask (id : String) (t : Ticker σ) : Option (Animation σ) :=
  (t.animations.find? (fun p => p.1 == id)).map Prod.snd

/-- The closure state stored for a task, when registered. -/
def taskState (id : String) (t : Ticker σ) : Option σ :=
  (lookupTask id t).map Animation.state

/-- `Set.add`: append if not already a member. -/
def setAdd (id : String) (l : List String) : List String :=
  if id ∈ l then l else l ++ [id]

/-- Write back a task's closure state after invoking one of its callbacks. -/
def updState (id : String) (s : σ) (t : Ticker σ) : Ticker σ :=
  { t with animations :=
      t.animations.map fun p => if p.1 = id then (p.1, { p.2 with state := s }) else p }

/-- Apply the `stopAnimation` calls a callback made while running
(`Set.delete` on `activeAnimations`, in call order). -/
def applyStops (stops : List String) (t : Ticker σ) : Ticker σ :=
  stops.foldl (fun acc id => { acc with activeAnimations := acc.activeAnimations.erase id }) t

/-- Timer and render-sink operations, recorded as a trace. -/
inductive Eff where
  | clearTimeout
  | setTimeout (d : JSNum)
  | drawScene
  deriving DecidableEq

/-- Result of one `moveForward` iteration over the active ids:
the collected `requestedTimes` and the mutated ticker, or an uncaught
exception (carrying the ticker as mutated so far). -/
inductive RunOut (σ : Type) where
  | done (times : List JSVal) (t : Ticker σ)
  | crashed (t : Ticker σ)

/-- The ticker carried by a `RunOut`. -/
def outTicker : RunOut σ → Ticker σ
  | .done _ t => t
  | .crashed t => t

/-- The collected `requestedTimes` of a `RunOut` (empty if it crashed). -/
def runTimes : RunOut σ → List JSVal
  | .done times _ => times
  | .crashed _ => []

/-- The `for (const id of this.activeAnimations)` loop of `moveForward`:
visit each id still active when its turn comes, look its task up
(a missing entry would make `animation.loop()` throw a TypeError, modelled
as `crashed`), invoke `loop`, push the returned value, and let an uncaught
exception propagate. -/
def stepIds : List String → Ticker σ → List JSVal → RunOut σ
  | [], t, acc => .done acc t
  | id :: rest, t, acc =>
    if id ∈ t.activeAnimations then
      match lookupTask id t with
      | none => .crashed t
      | some task =>
        match task.loop t.elapsedTime task.state with
        | ⟨.exn, s1, stops⟩ => .crashed (applyStops stops (updState id s1 t))
        | ⟨.ok v, s1, stops⟩ => stepIds rest (applyStops stops (updState id s1 t)) (acc ++ [v])
    else stepIds rest t acc

/-- `if (typeof this.currentTime === 'undefined') this.currentTime = Date.now()`. -/
def tickInit (now : ℤ) (t : Ticker σ) : Ticker σ :=
  if t.currentTime = none then { t with currentTime := some (.int now) } else t

/-- What `moveForward` produces: `undefined` (nothing ran), the minimum
requested delay, or an uncaught exception from a callback. -/
inductive MoveResult where
  | noWork
  | renderIn (x : JSNum)
  | crash
  deriving DecidableEq

/-- `Ticker.moveForward`: initialise `currentTime` if unset, invoke every
active task, and if any value was collected advance `elapsedTime` and
`currentTime` by `Math.min` of the collected values and return it. -/
def moveForward (now : ℤ) (t : Ticker σ) : MoveResult × Ticker σ :=
  match stepIds (tickInit now t).activeAnimations (tickInit now t) [] with
  | .crashed t1 => (.crash, t1)
  | .done [] t1 => (.noWork, t1)
  | .done (v :: vs) t1 =>
    (.renderIn (jsMinimum (v :: vs)),
     { t1 with
        elapsedTime := jadd t1.elapsedTime (jsMinimum (v :: vs)),
        currentTime := t1.currentTime.map fun c => jadd c (jsMinimum (v :: vs)) })

/-- The resynchronisation at the top of `previewLoop`:
`elapsedTime = Date.now() - previewStartTime; currentTime = Date.now()`
(`Date.now() - undefined` is NaN). -/
def previewResync (now : ℤ) (t : Ticker σ) : Ticker σ :=
  { t with
      elapsedTime := match t.previewStartTime with
        | some s => .int (now - s)
        | none => .nan,
      currentTime := some (.int now) }

/-- The effects of one `previewLoop` iteration after `moveForward`:
always draw the scene, then schedule the next wake when a delay was
returned and tasks remain active; an uncaught exception skips both. -/
def loopEffs (r : MoveResult) (activeEmpty : Bool) : List Eff :=
  match r with
  | .renderIn w => if activeEmpty then [Eff.drawScene] else [Eff.drawScene, Eff.setTimeout w]
  | .noWork => [Eff.drawScene]
  | .crash => []

/-- `Ticker.previewLoop` (one synchronous iteration; the scheduled
continuation is recorded as a `setTimeout` effect). -/
def previewLoop (now : ℤ) (t : Ticker σ) : Ticker σ × List Eff :=
  if t.activeAnimations = [] then ({ t with previewStartTime := none }, [])
  else
    ((moveForward now (previewResync now t)).2,
     loopEffs (moveForward now (previewResync now t)).1
       (moveForward now (previewResync now t)).2.activeAnimations.isEmpty)

/-- `Ticker.startPreview`: no-op when already running, else stamp the
start time and run the loop. -/
def startPreview (now : ℤ) (t : Ticker σ) : Ticker σ × List Eff :=
  match t.previewStartTime with
  | some _ => (t, [])
  | none => previewLoop now { t with previewStartTime := some now }

/-- `Ticker.registerAnimation`: insert into the registry, activate, and in
a browser environment start or immediately re-run the preview loop. -/
def registerAnimation (hasWindow : Bool) (now : ℤ) (id : String) (task : Animation σ)
    (t : Ticker σ) : Ticker σ × List Eff :=
  if hasWindow then
    if (setAdd id t.activeAnimations).length = 1 then
      startPreview now
        { t with animations := mapSet id task t.animations,
                 activeAnimations := setAdd id t.activeAnimations }
    else if 1 < (setAdd id t.activeAnimations).length then
      ((previewLoop now
          { t with animations := mapSet id task t.animations,
                   activeAnimations := setAdd id t.activeAnimations }).1,
       Eff.clearTimeout ::
        (previewLoop now
          { t with animations := mapSet id task t.animations,
                   activeAnimations := setAdd id t.activeAnimations }).2)
    else
      ({ t with animations := mapSet id task t.animations,
                activeAnimations := setAdd id t.activeAnimations }, [])
  else
    ({ t with animations := mapSet id task t.animations,
              activeAnimations := setAdd id t.activeAnimations }, [])

/-- `Ticker.stopAnimation`: drop from the active set; in a browser
environment cancel the pending wake when the active set empties. -/
def stopAnimation (hasWindow : Bool) (id : String) (t : Ticker σ) : Ticker σ × List Eff :=
  if hasWindow && (t.activeAnimations.erase id).isEmpty then
    ({ t with activeAnimations := t.activeAnimations.erase id }, [Eff.clearTimeout])
  else
    ({ t with activeAnimations := t.activeAnimations.erase id }, [])

/-- `Ticker.unregisterAnimation`: stop, then delete from the registry. -/
def unregisterAnimation (hasWindow : Bool) (id : String) (t : Ticker σ) : Ticker σ × List Eff :=
  ((stopAnimation hasWindow id t).1.animations.filter (fun p => ¬ (p.1 = id)) |>
    fun anims => ({ (stopAnimation hasWindow id t).1 with animations := anims },
                  (stopAnimation hasWindow id t).2))

/-- `animation.reset?.()`: apply the reset callback to the task's closure
state when present. -/
def applyReset (task : Animation σ) : Animation σ :=
  match task.reset with
  | some r => { task with state := r task.state }
  | none => task

/-- The body of `replayPreview` before the final `startPreview` call:
zero the clock, clear the stamp, reset every registered task once and
re-add every registered id to the active set. -/
def replayCore (t : Ticker σ) : Ticker σ :=
  { t with
      elapsedTime := .int 0,
      previewStartTime := none,
      animations := t.animations.map fun p => (p.1, applyReset p.2),
      activeAnimations := t.animations.foldl (fun act p => setAdd p.1 act) t.activeAnimations }

/-- `Ticker.replayPreview`: cancel the pending wake, run the replay body,
and restart the preview. -/
def replayPreview (now : ℤ) (t : Ticker σ) : Ticker σ × List Eff :=
  ((startPreview now (replayCore t)).1,
   Eff.clearTimeout :: (startPreview now (replayCore t)).2)

/-!
The animated-image frame adapter: the callback `Image._startAnimation`
registers with the ticker.  The CanvasKit `AnimatedImage` is modelled by
its decode `cursor` (frame index) and the fixed per-frame `durations`
list; `makeImageAtCurrentFrame` (materialising a frame for rendering) is
recorded by appending the cursor to `materialized`.
-/

/-- Closure and decoder state of the image adapter: the decode cursor,
the `animationFrame` and `animationTime` closure variables, and the
history of materialised frames. -/
structure ImgState where
  cursor : ℕ
  animationFrame : ℤ
  animationTime : JSNum
  materialized : List ℕ
  deriving DecidableEq

/-- The `while (ticker.elapsedTime >= animationTime)` loop of the image
adapter's callback, with explicit fuel (the source relies on positive
frame durations for termination; exhausted fuel is reported as `none`). -/
def imgLoopAux (durations : List ℤ) (frameCount : ℤ) (id : String) (elapsed : JSNum) :
    ℕ → ImgState → Option (ImgState × List String)
  | 0, _ => none
  | fuel + 1, s =>
    if jge elapsed s.animationTime then
      let cursor1 := s.cursor + 1
      let at1 := jadd s.animationTime (.int (durations.getD cursor1 0))
      let s1 : ImgState := { s with cursor := cursor1, animationTime := at1 }
      if jge elapsed at1 then
        imgLoopAux durations frameCount id elapsed fuel s1
      else
        let s2 : ImgState :=
          { s1 with materialized := s1.materialized ++ [cursor1],
                    animationFrame := s1.animationFrame + 1 }
        if frameCount ≤ s2.animationFrame then some (s2, [id])
        else imgLoopAux durations frameCount id elapsed fuel s2
    else some (s, [])

/-- The image adapter's registered callback: run the catch-up loop, then
return `animationTime - ticker.elapsedTime` (also after stopping itself
on the last frame). -/
def imageAdvance (durations : List ℤ) (frameCount : ℤ) (id : String) (fuel : ℕ)
    (elapsed : JSNum) (s : ImgState) : LoopOut ImgState :=
  match imgLoopAux durations frameCount id elapsed fuel s with
  | some (s1, stops) => ⟨.ok (.num (jsub s1.animationTime elapsed)), s1, stops⟩
  | none => ⟨.exn, s, []⟩

/-- The adapter's reset callback `() => this._startAnimation()`: rewind
the decoder, materialise frame 0 again, and restart the closure
variables at `animationFrame = 1`, `animationTime = durations[0]`. -/
def imgReset (durations : List ℤ) (s : ImgState) : ImgState :=
  { cursor := 0, animationFrame := 1,
    animationTime := .int (durations.getD 0 0),
    materialized := s.materialized ++ [0] }

/-- The image task for three frames of 100ms each, just after
`_startAnimation` materialised frame 0 and registered the callback. -/
def imgTask : Animation ImgState :=
  { loop := imageAdvance [100, 100, 100] 3 "img" 8,
    reset := some (imgReset [100, 100, 100]),
    metadata := [],
    state := { cursor := 0, animationFrame := 1, animationTime := .int 100,
               materialized := [0] } }

/-- A deterministic-mode ticker holding the image task, whose
`elapsedTime` a caller has advanced to 250ms. -/
def tC8 : Ticker ImgState :=
  { animations := [("img", imgTask)], activeAnimations := ["img"],
    elapsedTime := .int 250, currentTime := some (.int 250),
    previewStartTime := none, initDate := 0 }

/-- A task whose callback always returns the constant delay `d` and
touches nothing else. -/
def constTask (d : ℤ) : Animation Unit :=
  { loop := fun _ _ => ⟨.ok (.num (.int d)), (), []⟩,
    reset := none, metadata := [], state := () }

/-- A task whose callback returns `undefined` and counts its invocations
in its closure state. -/
def undefTask : Animation ℕ :=
  { loop := fun _ s => ⟨.ok .undef, s + 1, []⟩,
    reset := none, metadata := [], state := 0 }

/-- A task whose callback throws. -/
def throwTask : Animation ℕ :=
  { loop := fun _ s => ⟨.exn, s, []⟩,
    reset := none, metadata := [], state := 0 }

/-- A task returning the constant delay `d` that counts its invocations. -/
def countTask (d : ℤ) : Animation ℕ :=
  { loop := fun _ s => ⟨.ok (.num (.int d)), s + 1, []⟩,
    reset := none, metadata := [], state := 0 }

/-- A task returning delay `d` that stops itself (as the image adapter
does on its last frame). -/
def selfStopTask (id : String) (d : ℤ) : Animation Unit :=
  { loop := fun _ _ => ⟨.ok (.num (.int d)), (), [id]⟩,
    reset := none, metadata := [], state := () }

/-! Basic facts about the scheduler step, shared by the claim theorems. -/

theorem applyStops_cons (x : String) (xs : List String) (t : Ticker σ) :
    applyStops (x :: xs) t
      = applyStops xs { t with activeAnimations := t.activeAnimations.erase x } := rfl

theorem applyStops_elapsed (stops : List String) (t : Ticker σ) :
    (applyStops stops t).elapsedTime = t.elapsedTime := by
  induction stops generalizing t with
  | nil => rfl
  | cons x xs ih => rw [applyStops_cons]; exact ih _

theorem applyStops_current (stops : List String) (t : Ticker σ) :
    (applyStops stops t).currentTime = t.currentTime := by
  induction stops generalizing t with
  | nil => rfl
  | cons x xs ih => rw [applyStops_cons]; exact ih _

theorem applyStops_stamp (stops : List String) (t : Ticker σ) :
    (applyStops stops t).previewStartTime = t.previewStartTime := by
  induction stops generalizing t with
  | nil => rfl
  | cons x xs ih => rw [applyStops_cons]; exact ih _

theorem applyStops_anim (stops : List String) (t : Ticker σ) :
    (applyStops stops t).animations = t.animations := by
  induction stops generalizing t with
  | nil => rfl
  | cons x xs ih => rw [applyStops_cons]; exact ih _

theorem applyStops_subset (stops : List String) (t : Ticker σ) (x : String)
    (h : x ∈ (applyStops stops t).activeAnimations) : x ∈ t.activeAnimations := by
  induction stops generalizing t with
  | nil => exact h
  | cons y ys ih =>
    rw [applyStops_cons] at h
    exact List.mem_of_mem_erase (ih _ h)

theorem applyStops_lookup (stops : List String) (t : Ticker σ) (id : String) :
    lookupTask id (applyStops stops t) = lookupTask id t := by
  unfold lookupTask
  rw [applyStops_anim]

theorem find_upd_ne (l : List (String × Animation σ)) (x id : String) (s1 : σ) (hx : x ≠ id) :
    (l.map fun p => if p.1 = x then (p.1, { p.2 with state := s1 }) else p).find?
        (fun p => p.1 == id)
      = l.find? (fun p => p.1 == id) := by
  induction l with
  | nil => rfl
  | cons p rest ih =>
    by_cases hpx : p.1 = x
    · have hpi : (p.1 == id) = false := by
        simp [hpx]
        exact hx
      simp only [List.map_cons, if_pos hpx]
      rw [List.find?_cons_of_neg, List.find?_cons_of_neg]
      · exact ih
      · simpa using hpi
      · simpa [hpx] using hpi
    · simp only [List.map_cons, if_neg hpx]
      by_cases hpi : p.1 = id
      · rw [List.find?_cons_of_pos, List.find?_cons_of_pos] <;> simp [hpi]
      · rw [List.find?_cons_of_neg, List.find?_cons_of_neg]
        · exact ih
        · simp [hpi]
        · simp [hpi]

theorem updState_lookup_ne (x : String) (s1 : σ) (t : Ticker σ) (id : String) (hx : x ≠ id) :
    lookupTask id (updState x s1 t) = lookupTask id t := by
  unfold lookupTask updState
  exact congrArg (Option.map Prod.snd) (find_upd_ne t.animations x id s1 hx)

theorem updState_keys (id : String) (s : σ) (t : Ticker σ) :
    (updState id s t).animations.map Prod.fst = t.animations.map Prod.fst := by
  unfold updState
  rw [List.map_map]
  apply List.map_congr_left
  intro p _
  by_cases h : p.1 = id <;> simp [h]

/-! Unfolding equations for `stepIds`. -/

theorem stepIds_nil (t : Ticker σ) (acc : List JSVal) : stepIds [] t acc = .done acc t := rfl

theorem stepIds_cons_notmem (id : String) (rest : List String) (t : Ticker σ)
    (acc : List JSVal) (h : id ∉ t.activeAnimations) :
    stepIds (id :: rest) t acc = stepIds rest t acc := by
  simp [stepIds, h]

theorem stepIds_cons_nolookup (id : String) (rest : List String) (t : Ticker σ)
    (acc : List JSVal) (h : id ∈ t.activeAnimations) (hl : lookupTask id t = none) :
    stepIds (id :: rest) t acc = .crashed t := by
  simp [stepIds, h, hl]

theorem stepIds_cons_exn (id : String) (rest : List String) (t : Ticker σ)
    (acc : List JSVal) (task : Animation σ) (s1 : σ) (stops : List String)
    (h : id ∈ t.activeAnimations) (hl : lookupTask id t = some task)
    (hout : task.loop t.elapsedTime task.state = ⟨.exn, s1, stops⟩) :
    stepIds (id :: rest) t acc = .crashed (applyStops stops (updState id s1 t)) := by
  simp [stepIds, h, hl, hout]

theorem stepIds_cons_ok (id : String) (rest : List String) (t : Ticker σ)
    (acc : List JSVal) (task : Animation σ) (v : JSVal) (s1 : σ) (stops : List String)
    (h : id ∈ t.activeAnimations) (hl : lookupTask id t = some task)
    (hout : task.loop t.elapsedTime task.state = ⟨.ok v, s1, stops⟩) :
    stepIds (id :: rest) t acc
      = stepIds rest (applyStops stops (updState id s1 t)) (acc ++ [v]) := by
  simp [stepIds, h, hl, hout]

/-- The iteration of `moveForward` never changes the clocks or the
preview stamp: only the final `Math.min` step advances them. -/
theorem stepIds_fields (l : List String) (t : Ticker σ) (acc : List JSVal) :
    (outTicker (stepIds l t acc)).elapsedTime = t.elapsedTime ∧
    (outTicker (stepIds l t acc)).currentTime = t.currentTime ∧
    (outTicker (stepIds l t acc)).previewStartTime = t.previewStartTime := by
  induction l generalizing t acc with
  | nil => exact ⟨rfl, rfl, rfl⟩
  | cons id rest ih =>
    by_cases h : id ∈ t.activeAnimations
    · cases hl : lookupTask id t with
      | none => rw [stepIds_cons_nolookup id rest t acc h hl]; exact ⟨rfl, rfl, rfl⟩
      | some task =>
        rcases hout : task.loop t.elapsedTime task.state with ⟨res, s1, stops⟩
        cases res with
        | exn =>
          rw [stepIds_cons_exn id rest t acc task s1 stops h hl hout]
          exact ⟨applyStops_elapsed _ _, applyStops_current _ _, applyStops_stamp _ _⟩
        | ok v =>
          rw [stepIds_cons_ok id rest t acc task v s1 stops h hl hout]
          obtain ⟨h1, h2, h3⟩ := ih (applyStops stops (updState id s1 t)) (acc ++ [v])
          exact ⟨h1.trans (applyStops_elapsed _ _), h2.trans (applyStops_current _ _),
                 h3.trans (applyStops_stamp _ _)⟩
    · rw [stepIds_cons_notmem id rest t acc h]; exact ih t acc

/-- The iteration of `moveForward` never adds or removes registry
entries: a callback can only deactivate ids and update closure state. -/
theorem stepIds_keys (l : List String) (t : Ticker σ) (acc : List JSVal) :
    (outTicker (stepIds l t acc)).animations.map Prod.fst = t.animations.map Prod.fst := by
  induction l generalizing t acc with
  | nil => rfl
  | cons id rest ih =>
    by_cases h : id ∈ t.activeAnimations
    · cases hl : lookupTask id t with
      | none => rw [stepIds_cons_nolookup id rest t acc h hl]; rfl
      | some task =>
        rcases hout : task.loop t.elapsedTime task.state with ⟨res, s1, stops⟩
        cases res with
        | exn =>
          rw [stepIds_cons_exn id rest t acc task s1 stops h hl hout]
          show (applyStops stops (updState id s1 t)).animations.map Prod.fst = _
          rw [applyStops_anim]
          exact updState_keys id s1 t
        | ok v =>
          rw [stepIds_cons_ok id rest t acc task v s1 stops h hl hout]
          refine (ih _ _).trans ?_
          rw [applyStops_anim]
          exact updState_keys id s1 t
    · rw [stepIds_cons_notmem id rest t acc h]; exact ih t acc

/-- An id that is not in the active set when a tick starts is never
invoked during the tick: its registry entry (callbacks and closure
state) is untouched and it stays inactive. -/
theorem stepIds_inactive (l : List String) (t : Ticker σ) (acc : List JSVal) (id : String)
    (h : id ∉ t.activeAnimations) :
    lookupTask id (outTicker (stepIds l t acc)) = lookupTask id t ∧
    id ∉ (outTicker (stepIds l t acc)).activeAnimations := by
  induction l generalizing t acc with
  | nil => exact ⟨rfl, h⟩
  | cons x rest ih =>
    by_cases hx : x ∈ t.activeAnimations
    · have hxid : x ≠ id := fun e => h (e ▸ hx)
      cases hl : lookupTask x t with
      | none => rw [stepIds_cons_nolookup x rest t acc hx hl]; exact ⟨rfl, h⟩
      | some task =>
        rcases hout : task.loop t.elapsedTime task.state with ⟨res, s1, stops⟩
        cases res with
        | exn =>
          rw [stepIds_cons_exn x rest t acc task s1 stops hx hl hout]
          refine ⟨?_, ?_⟩
          · show lookupTask id (applyStops stops (updState x s1 t)) = _
            rw [applyStops_lookup]
            exact updState_lookup_ne x s1 t id hxid
          · intro hmem
            exact h (applyStops_subset stops (updState x s1 t) id hmem)
        | ok v =>
          rw [stepIds_cons_ok x rest t acc task v s1 stops hx hl hout]
          have h2 : id ∉ (applyStops stops (updState x s1 t)).activeAnimations :=
            fun hmem => h (applyStops_subset stops (updState x s1 t) id hmem)
          obtain ⟨h3, h4⟩ := ih (applyStops stops (updState x s1 t)) (acc ++ [v]) h2
          refine ⟨?_, h4⟩
          rw [h3, applyStops_lookup]
          exact updState_lookup_ne x s1 t id hxid
    · rw [stepIds_cons_notmem x rest t acc hx]; exact ih t acc h

/-- When every task in the visit list is active, is registered, runs
without throwing and without reentrant stops, the iteration collects
exactly the returned values, in visit order, and only closure states
change. -/
theorem stepIds_ret (l : List String) (t : Ticker σ) (acc : List JSVal) (f : String → JSVal)
    (hnd : l.Nodup)
    (hact : ∀ id ∈ l, id ∈ t.activeAnimations)
    (h : ∀ id ∈ l, ∃ task s1, lookupTask id t = some task ∧
         task.loop t.elapsedTime task.state = ⟨.ok (f id), s1, []⟩) :
    ∃ t1, stepIds l t acc = .done (acc ++ l.map f) t1 ∧
      t1.elapsedTime = t.elapsedTime ∧ t1.currentTime = t.currentTime ∧
      t1.activeAnimations = t.activeAnimations := by
  induction l generalizing t acc with
  | nil => exact ⟨t, by simp [stepIds_nil], rfl, rfl, rfl⟩
  | cons x rest ih =>
    obtain ⟨task, s1, hl, hout⟩ := h x (List.mem_cons_self x rest)
    have hx := hact x (List.mem_cons_self x rest)
    rw [stepIds_cons_ok x rest t acc task (f x) s1 [] hx hl hout]
    have hxrest : x ∉ rest := (List.nodup_cons.mp hnd).1
    have hact1 : ∀ id ∈ rest, id ∈ (updState x s1 t).activeAnimations :=
      fun id hid => hact id (List.mem_cons_of_mem x hid)
    have h1 : ∀ id ∈ rest, ∃ task1 s2, lookupTask id (updState x s1 t) = some task1 ∧
        task1.loop (updState x s1 t).elapsedTime task1.state = ⟨.ok (f id), s2, []⟩ := by
      intro id hid
      obtain ⟨task1, s2, hl1, hout1⟩ := h id (List.mem_cons_of_mem x hid)
      have hne : x ≠ id := fun e => hxrest (e ▸ hid)
      exact ⟨task1, s2, (updState_lookup_ne x s1 t id hne).trans hl1, hout1⟩
    obtain ⟨t1, heq, he, hc, ha⟩ :=
      ih (updState x s1 t) (acc ++ [f x]) (List.nodup_cons.mp hnd).2 hact1 h1
    refine ⟨t1, ?_, he, hc, ha⟩
    show stepIds rest (applyStops [] (updState x s1 t)) (acc ++ [f x]) = _
    rw [show applyStops [] (updState x s1 t) = updState x s1 t from rfl, heq]
    simp

/-- The minimum of a non-empty integer list, with the fold orientation of
`Math.min` over spread arguments. -/
def listMin : List ℤ → ℤ
  | [] => 0
  | d :: ds => ds.foldl min d

theorem foldl_jmin_int (ds : List ℤ) (a : ℤ) :
    (ds.map fun d => JSVal.num (.int d)).foldl (fun acc w => jmin acc (toNum w)) (.int a)
      = .int (ds.foldl min a) := by
  induction ds generalizing a with
  | nil => rfl
  | cons d ds ih =>
    simp only [List.map_cons, List.foldl_cons]
    exact ih (min a d)

theorem jsMinimum_map_int (d : ℤ) (ds : List ℤ) :
    jsMinimum ((d :: ds).map fun x => JSVal.num (.int x)) = .int (listMin (d :: ds)) := by
  simp only [List.map_cons, jsMinimum, toNum, listMin]
  exact foldl_jmin_int ds d

theorem foldl_jmin_nonneg (l : List JSVal) (a : ℤ) (ha : 0 ≤ a)
    (h : ∀ v ∈ l, jsNonneg v = true) :
    ∃ m, l.foldl (fun acc w => jmin acc (toNum w)) (.int a) = .int m ∧ 0 ≤ m := by
  induction l generalizing a with
  | nil => exact ⟨a, rfl, ha⟩
  | cons v vs ih =>
    have hv := h v (List.mem_cons_self v vs)
    rcases v with x | _
    · rcases x with _ | n
      · simp [jsNonneg] at hv
      · have hn : 0 ≤ n := by simpa [jsNonneg] using hv
        have h2 := ih (min a n) (le_min ha hn) fun w hw => h w (List.mem_cons_of_mem _ hw)
        simpa [jmin, toNum] using h2
    · simp [jsNonneg] at hv

/-- `Math.min` over values that are all nonnegative numbers is a
nonnegative number. -/
theorem jsMinimum_nonneg (v : JSVal) (vs : List JSVal)
    (h : ∀ w ∈ v :: vs, jsNonneg w = true) :
    ∃ m, jsMinimum (v :: vs) = .int m ∧ 0 ≤ m := by
  have hv := h v (List.mem_cons_self v vs)
  rcases v with x | _
  · rcases x with _ | n
    · simp [jsNonneg] at hv
    · have hn : 0 ≤ n := by simpa [jsNonneg] using hv
      exact foldl_jmin_nonneg vs n hn fun w hw => h w (List.mem_cons_of_mem _ hw)
  · simp [jsNonneg] at hv

/-! `tickInit` facts. -/

theorem tickInit_of_some (now : ℤ) (t : Ticker σ) (x : JSNum) (h : t.currentTime = some x) :
    tickInit now t = t := by
  simp [tickInit, h]

theorem tickInit_elapsed (now : ℤ) (t : Ticker σ) :
    (tickInit now t).elapsedTime = t.elapsedTime := by
  unfold tickInit; split <;> rfl

theorem tickInit_active (now : ℤ) (t : Ticker σ) :
    (tickInit now t).activeAnimations = t.activeAnimations := by
  unfold tickInit; split <;> rfl

theorem tickInit_stamp (now : ℤ) (t : Ticker σ) :
    (tickInit now t).previewStartTime = t.previewStartTime := by
  unfold tickInit; split <;> rfl

theorem tickInit_anim (now : ℤ) (t : Ticker σ) :
    (tickInit now t).animations = t.animations := by
  unfold tickInit; split <;> rfl

theorem tickInit_lookup (now : ℤ) (t : Ticker σ) (id : String) :
    lookupTask id (tickInit now t) = lookupTask id t := by
  unfold lookupTask
  rw [tickInit_anim]

/-! Unfolding equations for `moveForward`. -/

theorem moveForward_eq_crash (now : ℤ) (t t1 : Ticker σ)
    (h : stepIds (tickInit now t).activeAnimations (tickInit now t) [] = .crashed t1) :
    moveForward now t = (.crash, t1) := by
  simp [moveForward, h]

theorem moveForward_eq_nil (now : ℤ) (t t1 : Ticker σ)
    (h : stepIds (tickInit now t).activeAnimations (tickInit now t) [] = .done [] t1) :
    moveForward now t = (.noWork, t1) := by
  simp [moveForward, h]

theorem moveForward_eq_cons (now : ℤ) (t t1 : Ticker σ) (v : JSVal) (vs : List JSVal)
    (h : stepIds (tickInit now t).activeAnimations (tickInit now t) [] = .done (v :: vs) t1) :
    moveForward now t
      = (.renderIn (jsMinimum (v :: vs)),
         { t1 with
            elapsedTime := jadd t1.elapsedTime (jsMinimum (v :: vs)),
            currentTime := t1.currentTime.map fun c => jadd c (jsMinimum (v :: vs)) }) := by
  simp [moveForward, h]

/-- Core behaviour of `moveForward` for a tick in which every active task
is registered, returns a plain number and makes no reentrant calls: the
tick returns the minimum of the returned delays and advances
`elapsedTime` and `currentTime` by exactly that minimum. -/
theorem moveForward_ret_core (now e c : ℤ) (t : Ticker σ) (f : String → ℤ)
    (he : t.elapsedTime = .int e) (hc : t.currentTime = some (.int c))
    (hne : t.activeAnimations ≠ []) (hnd : t.activeAnimations.Nodup)
    (h : ∀ id ∈ t.activeAnimations, ∃ task s1, lookupTask id t = some task ∧
         task.loop (.int e) task.state = ⟨.ok (.num (.int (f id))), s1, []⟩) :
    (moveForward now t).1 = .renderIn (.int (listMin (t.activeAnimations.map f))) ∧
    (moveForward now t).2.elapsedTime = .int (e + listMin (t.activeAnimations.map f)) ∧
    (moveForward now t).2.currentTime = some (.int (c + listMin (t.activeAnimations.map f))) ∧
    (moveForward now t).2.activeAnimations = t.activeAnimations := by
  have htick : tickInit now t = t := tickInit_of_some now t _ hc
  have h1 : ∀ id ∈ t.activeAnimations, ∃ task s1, lookupTask id t = some task ∧
      task.loop t.elapsedTime task.state
        = ⟨.ok ((fun id => JSVal.num (.int (f id))) id), s1, []⟩ := by
    rw [he]; exact h
  obtain ⟨t1, hstep, he1, hc1, ha1⟩ :=
    stepIds_ret t.activeAnimations t [] (fun id => JSVal.num (.int (f id)))
      hnd (fun id hid => hid) h1
  rw [List.nil_append] at hstep
  obtain ⟨a, rest, hl⟩ := List.exists_cons_of_ne_nil hne
  have hmapeq : t.activeAnimations.map (fun id => JSVal.num (.int (f id)))
      = ((a :: rest).map f).map fun x => JSVal.num (.int x) := by
    rw [hl, List.map_map]
    rfl
  have hmin : jsMinimum (t.activeAnimations.map fun id => JSVal.num (.int (f id)))
      = .int (listMin (t.activeAnimations.map f)) := by
    rw [hmapeq, hl]
    exact jsMinimum_map_int (f a) (rest.map f)
  have hcons : ∃ v vs, t.activeAnimations.map (fun id => JSVal.num (.int (f id))) = v :: vs := by
    rw [hl]
    exact ⟨_, _, rfl⟩
  obtain ⟨v, vs, hvvs⟩ := hcons
  rw [hvvs] at hstep
  have hmf := moveForward_eq_cons now t t1 v vs (by rw [htick]; exact hstep)
  rw [← hvvs] at hmf
  rw [hmin] at hmf
  refine ⟨?_, ?_, ?_, ?_⟩
  · rw [hmf]
  · rw [hmf]
    show jadd t1.elapsedTime _ = _
    rw [he1, he]
    rfl
  · rw [hmf]
    show t1.currentTime.map _ = _
    rw [hc1, hc]
    rfl
  · rw [hmf]
    exact ha1

/-- Deterministic-mode ticker with two constant-delay tasks (10ms and
30ms), both active. -/
def tC1 : Ticker Unit :=
  { animations := [("a", constTask 10), ("b", constTask 30)],
    activeAnimations := ["a", "b"],
    elapsedTime := .int 0, currentTime := some (.int 0),
    previewStartTime := none, initDate := 0 }

/-- Claim C1: for every tick in which at least one active task is invoked
(each active task registered, returning a plain numeric delay and making
no reentrant call), `moveForward` returns the minimum of all delays the
invoked tasks returned that tick, and `elapsedTime` and `currentTime`
each increase by exactly that minimum — not by a per-task amount or by
the sum. -/
theorem moveForward_returns_min (now e c : ℤ) (t : Ticker σ) (f : String → ℤ)
    (he : t.elapsedTime = .int e) (hc : t.currentTime = some (.int c))
    (hne : t.activeAnimations ≠ []) (hnd : t.activeAnimations.Nodup)
    (h : ∀ id ∈ t.activeAnimations, ∃ task s1, lookupTask id t = some task ∧
         task.loop (.int e) task.state = ⟨.ok (.num (.int (f id))), s1, []⟩) :
    (moveForward now t).1 = .renderIn (.int (listMin (t.activeAnimations.map f))) ∧
    (moveForward now t).2.elapsedTime = .int (e + listMin (t.activeAnimations.map f)) ∧
    (moveForward now t).2.currentTime = some (.int (c + listMin (t.activeAnimations.map f))) :=
  ⟨(moveForward_ret_core now e c t f he hc hne hnd h).1,
   (moveForward_ret_core now e c t f he hc hne hnd h).2.1,
   (moveForward_ret_core now e c t f he hc hne hnd h).2.2.1⟩

/-- Witness for C1: delays 10 and 30 give a tick of exactly 10. -/
theorem moveForward_returns_min_witness :
    (moveForward 0 tC1).1 = .renderIn (.int 10) ∧
    (moveForward 0 tC1).2.elapsedTime = .int 10 ∧
    (moveForward 0 tC1).2.currentTime = some (.int 10) := by
  have harg : ∀ id ∈ tC1.activeAnimations, ∃ task s1, lookupTask id tC1 = some task ∧
      task.loop (.int 0) task.state
        = ⟨.ok (.num (.int ((fun id => if id = "a" then (10 : ℤ) else 30) id))), s1, []⟩ := by
    intro id hid
    have hmem : id = "a" ∨ id = "b" := by simpa [tC1] using hid
    rcases hmem with rfl | rfl
    · exact ⟨constTask 10, (), rfl, rfl⟩
    · exact ⟨constTask 30, (), rfl, rfl⟩
  have h := moveForward_returns_min 0 0 0 tC1
    (fun id => if id = "a" then (10 : ℤ) else 30) rfl rfl (by decide) (by decide) harg
  have hm : listMin (tC1.activeAnimations.map fun id => if id = "a" then (10 : ℤ) else 30)
      = 10 := by decide
  rw [hm] at h
  exact h

/-- Claim C3: a tick with an empty active set returns undefined
("no pending work") and leaves `elapsedTime` unchanged. -/
theorem moveForward_empty_noWork (now : ℤ) (t : Ticker σ) (h : t.activeAnimations = []) :
    (moveForward now t).1 = .noWork ∧
    (moveForward now t).2.elapsedTime = t.elapsedTime := by
  have hact : (tickInit now t).activeAnimations = [] := by rw [tickInit_active, h]
  have hstep : stepIds (tickInit now t).activeAnimations (tickInit now t) []
      = .done [] (tickInit now t) := by rw [hact]; rfl
  have hmf := moveForward_eq_nil now t (tickInit now t) hstep
  rw [hmf]
  exact ⟨rfl, tickInit_elapsed now t⟩

/-- A ticker with no registered tasks at all. -/
def tC3 : Ticker Unit :=
  { animations := [], activeAnimations := [], elapsedTime := .int 0,
    currentTime := none, previewStartTime := none, initDate := 0 }

/-- Witness for C3 at a ticker with zero registered tasks. -/
theorem moveForward_empty_noWork_witness :
    (moveForward 0 tC3).1 = .noWork ∧ (moveForward 0 tC3).2.elapsedTime = tC3.elapsedTime :=
  moveForward_empty_noWork 0 tC3 rfl

/-- Claim C8: with per-frame durations `[100, 100, 100]` and
`elapsedTime` jumped to 250ms, a single tick drives the image adapter's
decode cursor to frame index 2, yet materialises only that last decoded
frame (the tick's materialisation history grows from `[0]` to `[0, 2]`:
the skipped frame 1 is decoded but never materialised), the task stays
active (frame 2 of 3 displayed), and the tick returns the 50ms left
until frame 2 expires. -/
theorem image_catchup_single_render :
    (moveForward 250 tC8).1 = .renderIn (.int 50) ∧
    taskState "img" (moveForward 250 tC8).2
      = some { cursor := 2, animationFrame := 2, animationTime := .int 300,
               materialized := [0, 2] } ∧
    (moveForward 250 tC8).2.activeAnimations = ["img"] ∧
    (moveForward 250 tC8).2.elapsedTime = .int 300 := by
  refine ⟨?_, ?_, ?_, ?_⟩ <;> decide

/-- Claim C10: with no `window` object, `registerAnimation` and
`stopAnimation` only mutate the registry and the active set — no preview
start, no immediate tick, no timer scheduled or cancelled, and the
clocks `elapsedTime`/`currentTime` (and the preview stamp) untouched. -/
theorem headless_register_stop_pure (now : ℤ) (id : String) (task : Animation σ)
    (t : Ticker σ) :
    ((registerAnimation false now id task t).2 = [] ∧
     (registerAnimation false now id task t).1.elapsedTime = t.elapsedTime ∧
     (registerAnimation false now id task t).1.currentTime = t.currentTime ∧
     (registerAnimation false now id task t).1.previewStartTime = t.previewStartTime ∧
     (registerAnimation false now id task t).1.animations = mapSet id task t.animations ∧
     (registerAnimation false now id task t).1.activeAnimations
       = setAdd id t.activeAnimations) ∧
    ((stopAnimation false id t).2 = [] ∧
     (stopAnimation false id t).1.elapsedTime = t.elapsedTime ∧
     (stopAnimation false id t).1.currentTime = t.currentTime ∧
     (stopAnimation false id t).1.previewStartTime = t.previewStartTime ∧
     (stopAnimation false id t).1.animations = t.animations ∧
     (stopAnimation false id t).1.activeAnimations = t.activeAnimations.erase id) :=
  ⟨⟨rfl, rfl, rfl, rfl, rfl, rfl⟩, ⟨rfl, rfl, rfl, rfl, rfl, rfl⟩⟩

/-- Ticker whose single active task always requests a negative delay. -/
def tC5 : Ticker Unit :=
  { animations := [("a", constTask (-5))], activeAnimations := ["a"],
    elapsedTime := .int 100, currentTime := some (.int 100),
    previewStartTime := none, initDate := 0 }

/-- Counterexample to C5: a task returning -5 is not treated as 0 — the
tick returns -5 and `elapsedTime` moves from 100 down to 95 (were the
delay clamped to 0, it would return 0 and leave `elapsedTime` at 100). -/
theorem negative_delay_propagates_cx :
    (moveForward 0 tC5).1 = .renderIn (.int (-5)) ∧
    (moveForward 0 tC5).2.elapsedTime = .int 95 := by
  refine ⟨?_, ?_⟩ <;> decide

/-- Claim C5 as amended: a negative delay returned by a task's callback
is propagated unchanged into the minimum computation and the clock
advance (no clamping to 0), so the tick returns the negative value and
`elapsedTime` decreases by it. -/
theorem negative_delay_propagates (now e c d : ℤ) (t : Ticker σ) (id : String)
    (hd : d < 0)
    (he : t.elapsedTime = .int e) (hc : t.currentTime = some (.int c))
    (hact : t.activeAnimations = [id])
    (h : ∃ task s1, lookupTask id t = some task ∧
         task.loop (.int e) task.state = ⟨.ok (.num (.int d)), s1, []⟩) :
    (moveForward now t).1 = .renderIn (.int d) ∧
    (moveForward now t).2.elapsedTime = .int (e + d) ∧
    e + d < e := by
  have hcore := moveForward_ret_core now e c t (fun _ => d) he hc
    (by rw [hact]; exact List.cons_ne_nil id []) (by rw [hact]; exact List.nodup_singleton id)
    (by
      intro x hx
      rw [hact] at hx
      have hxid : x = id := by simpa using hx
      subst hxid
      exact h)
  have hml : listMin (t.activeAnimations.map fun _ => d) = d := by
    rw [hact]
    rfl
  rw [hml] at hcore
  exact ⟨hcore.1, hcore.2.1, by omega⟩

/-- Witness for the amended C5. -/
theorem negative_delay_propagates_witness :
    (moveForward 0 tC5).2.elapsedTime = .int 95 ∧ (100 : ℤ) + (-5) < 100 := by
  have h := negative_delay_propagates 0 100 100 (-5) tC5 "a" (by omega) rfl rfl rfl
    ⟨constTask (-5), (), rfl, rfl⟩
  exact ⟨h.2.1, h.2.2⟩

/-- Ticker with one task always requesting -5, clock at 0. -/
def tC7 : Ticker Unit :=
  { animations := [("a", constTask (-5))], activeAnimations := ["a"],
    elapsedTime := .int 0, currentTime := some (.int 0),
    previewStartTime := none, initDate := 0 }

/-- Counterexample to C7: two consecutive caller-driven ticks with a task
returning -5 take `elapsedTime` from 0 to -5 and then to -10 — the second
tick ends with `elapsedTime` strictly below its value at the end of the
first tick, so `elapsedTime` is not non-decreasing across ticks. -/
theorem elapsedTime_decreases_cx :
    (moveForward 0 tC7).2.elapsedTime = .int (-5) ∧
    (moveForward 0 (moveForward 0 tC7).2).2.elapsedTime = .int (-10) ∧
    (-10 : ℤ) < -5 := by
  refine ⟨?_, ?_, ?_⟩ <;> decide

/-- Claim C7 as amended: a tick never decreases `elapsedTime` provided
every delay collected that tick is a nonnegative number (ticks whose
minimum collected delay is negative do decrease it, per the
counterexample). -/
theorem elapsedTime_mono_nonneg (now e : ℤ) (t : Ticker σ)
    (he : t.elapsedTime = .int e)
    (h : ∀ v ∈ runTimes (stepIds (tickInit now t).activeAnimations (tickInit now t) []),
         jsNonneg v = true) :
    ∃ e1, (moveForward now t).2.elapsedTime = .int e1 ∧ e ≤ e1 := by
  have hfields := stepIds_fields (tickInit now t).activeAnimations (tickInit now t) []
  cases hs : stepIds (tickInit now t).activeAnimations (tickInit now t) [] with
  | crashed t1 =>
    rw [moveForward_eq_crash now t t1 hs]
    rw [hs] at hfields
    simp only [outTicker] at hfields
    refine ⟨e, ?_, le_refl e⟩
    show t1.elapsedTime = .int e
    rw [hfields.1, tickInit_elapsed, he]
  | done times t1 =>
    cases times with
    | nil =>
      rw [moveForward_eq_nil now t t1 hs]
      rw [hs] at hfields
      simp only [outTicker] at hfields
      refine ⟨e, ?_, le_refl e⟩
      show t1.elapsedTime = .int e
      rw [hfields.1, tickInit_elapsed, he]
    | cons v vs =>
      rw [moveForward_eq_cons now t t1 v vs hs]
      rw [hs] at hfields h
      have hn : ∀ w ∈ v :: vs, jsNonneg w = true := h
      obtain ⟨m, hm, hm0⟩ := jsMinimum_nonneg v vs hn
      simp only [outTicker] at hfields
      have ht1 : t1.elapsedTime = .int e := by
        rw [hfields.1, tickInit_elapsed, he]
      refine ⟨e + m, ?_, by omega⟩
      show jadd t1.elapsedTime (jsMinimum (v :: vs)) = .int (e + m)
      rw [ht1, hm]
      rfl

/-- Witness for the amended C7 at a concrete state with 10ms and 30ms
tasks: the tick takes the clock from 0 to 10, not downward. -/
theorem elapsedTime_mono_nonneg_witness :
    (moveForward 0 tC1).2.elapsedTime = .int 10 ∧ (0 : ℤ) ≤ 10 := by
  obtain ⟨e1, he1, h0⟩ := elapsedTime_mono_nonneg 0 0 tC1 rfl (by decide)
  have h10 : (moveForward 0 tC1).2.elapsedTime = .int 10 := by decide
  exact ⟨h10, by omega⟩

/-- Both branches of `stopAnimation` mutate the ticker identically:
only the active set shrinks. -/
theorem stopAnimation_fst (hw : Bool) (id : String) (t : Ticker σ) :
    (stopAnimation hw id t).1
      = { t with activeAnimations := t.activeAnimations.erase id } := by
  unfold stopAnimation
  split <;> rfl

theorem find_filter_ne (l : List (String × Animation σ)) (id : String) :
    (l.filter fun p => ¬ (p.1 = id)).find? (fun p => p.1 == id) = none := by
  rw [List.find?_eq_none]
  intro p hp
  have h2 := (List.mem_filter.mp hp).2
  simp only [decide_not, Bool.not_eq_true', decide_eq_false_iff_not] at h2
  simp only [Bool.not_eq_true, beq_eq_false_iff_ne, ne_eq]
  exact h2

/-- After `unregisterAnimation id`, the registry no longer holds `id`. -/
theorem unregister_lookup_none (hw : Bool) (id : String) (t : Ticker σ) :
    lookupTask id (unregisterAnimation hw id t).1 = none := by
  show ((((stopAnimation hw id t).1.animations.filter fun p => ¬ (p.1 = id)).find?
    (fun p => p.1 == id)).map Prod.snd) = none
  rw [find_filter_ne]
  rfl

/-- A tick never invokes, mutates or reactivates a task that was not
active when the tick began. -/
theorem moveForward_inactive (now : ℤ) (t : Ticker σ) (id : String)
    (h : id ∉ t.activeAnimations) :
    lookupTask id (moveForward now t).2 = lookupTask id t ∧
    id ∉ (moveForward now t).2.activeAnimations := by
  have htick : id ∉ (tickInit now t).activeAnimations := by rw [tickInit_active]; exact h
  have hin := stepIds_inactive (tickInit now t).activeAnimations (tickInit now t) [] id htick
  cases hs : stepIds (tickInit now t).activeAnimations (tickInit now t) [] with
  | crashed t1 =>
    rw [moveForward_eq_crash now t t1 hs]
    rw [hs] at hin
    simp only [outTicker] at hin
    exact ⟨hin.1.trans (tickInit_lookup now t id), hin.2⟩
  | done times t1 =>
    cases times with
    | nil =>
      rw [moveForward_eq_nil now t t1 hs]
      rw [hs] at hin
      simp only [outTicker] at hin
      exact ⟨hin.1.trans (tickInit_lookup now t id), hin.2⟩
    | cons v vs =>
      rw [moveForward_eq_cons now t t1 v vs hs]
      rw [hs] at hin
      simp only [outTicker] at hin
      exact ⟨hin.1.trans (tickInit_lookup now t id), hin.2⟩

/-- Ticker with one active task that returns `undefined` each tick and
counts its invocations in its closure state. -/
def tC2 : Ticker ℕ :=
  { animations := [("a", undefTask)], activeAnimations := ["a"],
    elapsedTime := .int 0, currentTime := some (.int 0),
    previewStartTime := none, initDate := 0 }

/-- Counterexample to C2: a task whose callback returns `undefined`
("done") is NOT removed from the active set — after the tick it is still
the whole active set, and a second tick invokes it again (its invocation
counter reaches 2). -/
theorem undef_return_does_not_deactivate :
    (moveForward 0 tC2).2.activeAnimations = ["a"] ∧
    taskState "a" (moveForward 0 (moveForward 0 tC2).2).2 = some 2 := by
  refine ⟨?_, ?_⟩ <;> decide

/-- Claim C2 as amended: in the current `Ticker` a task's return value
never deactivates it; a task is deactivated only by an explicit
`stopAnimation` (which the repository's tasks call from inside their own
callback to signal completion).  A task so deactivated is excluded from
subsequent ticks — `moveForward` leaves its registry entry, closure
state included, untouched and does not reactivate it — while the entry
remains in the registry until `unregisterAnimation` removes it. -/
theorem stop_deactivates_registry_persists (hw : Bool) (now : ℤ) (id : String)
    (t : Ticker σ) (hnd : t.activeAnimations.Nodup) :
    id ∉ (stopAnimation hw id t).1.activeAnimations ∧
    (stopAnimation hw id t).1.animations = t.animations ∧
    lookupTask id (moveForward now (stopAnimation hw id t).1).2
      = lookupTask id (stopAnimation hw id t).1 ∧
    id ∉ (moveForward now (stopAnimation hw id t).1).2.activeAnimations ∧
    lookupTask id (unregisterAnimation hw id t).1 = none := by
  have hfst := stopAnimation_fst hw id t
  have hnotmem : id ∉ (stopAnimation hw id t).1.activeAnimations := by
    rw [hfst]
    exact hnd.not_mem_erase
  obtain ⟨h1, h2⟩ := moveForward_inactive now (stopAnimation hw id t).1 id hnotmem
  exact ⟨hnotmem, by rw [hfst], h1, h2, unregister_lookup_none hw id t⟩

/-- Witness for the amended C2 at a concrete one-task ticker. -/
theorem stop_deactivates_registry_persists_witness :
    "a" ∉ (stopAnimation false "a" tC2).1.activeAnimations ∧
    (stopAnimation false "a" tC2).1.animations = tC2.animations ∧
    lookupTask "a" (moveForward 0 (stopAnimation false "a" tC2).1).2
      = lookupTask "a" (stopAnimation false "a" tC2).1 ∧
    "a" ∉ (moveForward 0 (stopAnimation false "a" tC2).1).2.activeAnimations ∧
    lookupTask "a" (unregisterAnimation false "a" tC2).1 = none :=
  stop_deactivates_registry_persists false 0 "a" tC2 (by decide)

/-- Ticker with a throwing task first in visit order, then a healthy
10ms task that counts its invocations. -/
def tC4 : Ticker ℕ :=
  { animations := [("bad", throwTask), ("b", countTask 10)],
    activeAnimations := ["bad", "b"],
    elapsedTime := .int 0, currentTime := some (.int 0),
    previewStartTime := none, initDate := 0 }

/-- Counterexample to C4: when the first active task's callback throws,
the failure is NOT isolated — the whole tick aborts with the exception,
the offending task stays active, the remaining task is never invoked
(its counter stays 0), and the clock does not advance. -/
theorem throwing_task_aborts_tick_cx :
    (moveForward 0 tC4).1 = .crash ∧
    "bad" ∈ (moveForward 0 tC4).2.activeAnimations ∧
    taskState "b" (moveForward 0 tC4).2 = some 0 ∧
    (moveForward 0 tC4).2.elapsedTime = .int 0 := by
  refine ⟨?_, ?_, ?_, ?_⟩ <;> decide

/-- Claim C4 as amended: `moveForward` has no exception isolation — when
the first active task's callback throws (without reentrant stops), the
exception propagates out of the tick, the offending task is not
deactivated, the clock does not advance, and the tasks after it in visit
order are not invoked (their registry entries are untouched). -/
theorem throwing_task_aborts_tick (now : ℤ) (t : Ticker σ) (a : String)
    (rest : List String)
    (hact : t.activeAnimations = a :: rest)
    (h : ∃ task s1, lookupTask a t = some task ∧
         task.loop t.elapsedTime task.state = ⟨.exn, s1, []⟩) :
    (moveForward now t).1 = .crash ∧
    (moveForward now t).2.elapsedTime = t.elapsedTime ∧
    (moveForward now t).2.activeAnimations = a :: rest ∧
    ∀ b ∈ rest, b ≠ a → lookupTask b (moveForward now t).2 = lookupTask b t := by
  obtain ⟨task, s1, hl, hout⟩ := h
  have hl0 : lookupTask a (tickInit now t) = some task :=
    (tickInit_lookup now t a).trans hl
  have hout0 : task.loop (tickInit now t).elapsedTime task.state = ⟨.exn, s1, []⟩ := by
    rw [tickInit_elapsed]
    exact hout
  have hact0 : (tickInit now t).activeAnimations = a :: rest := by
    rw [tickInit_active, hact]
  have hmem : a ∈ (tickInit now t).activeAnimations := by
    rw [hact0]
    exact List.mem_cons_self a rest
  have hstep : stepIds (tickInit now t).activeAnimations (tickInit now t) []
      = .crashed (updState a s1 (tickInit now t)) := by
    rw [hact0]
    exact stepIds_cons_exn a rest (tickInit now t) [] task s1 [] hmem hl0 hout0
  rw [moveForward_eq_crash now t (updState a s1 (tickInit now t)) hstep]
  refine ⟨rfl, ?_, ?_, ?_⟩
  · show (updState a s1 (tickInit now t)).elapsedTime = t.elapsedTime
    exact tickInit_elapsed now t
  · show (updState a s1 (tickInit now t)).activeAnimations = a :: rest
    exact hact0
  · intro b _ hba
    show lookupTask b (updState a s1 (tickInit now t)) = lookupTask b t
    rw [updState_lookup_ne a s1 (tickInit now t) b (fun e => hba e.symm)]
    exact tickInit_lookup now t b

/-- Witness for the amended C4 at `tC4`. -/
theorem throwing_task_aborts_tick_witness :
    (moveForward 0 tC4).1 = .crash ∧
    (moveForward 0 tC4).2.elapsedTime = tC4.elapsedTime ∧
    (moveForward 0 tC4).2.activeAnimations = "bad" :: ["b"] ∧
    ∀ b ∈ ["b"], b ≠ "bad" → lookupTask b (moveForward 0 tC4).2 = lookupTask b tC4 :=
  throwing_task_aborts_tick 0 tC4 "bad" ["b"] rfl ⟨throwTask, 0, rfl, rfl⟩

/-- Claim C9: a task that deactivates itself mid-tick (calling
`stopAnimation` on its own id, as the image adapter does on its last
frame) still has its returned delay pushed into that tick's collected
delays, so the tick's minimum — hence the `elapsedTime` advance and the
returned wake delay — can be the value of a task no longer active after
the tick. -/
theorem self_stopping_task_counts (now e c da db : ℤ) (t : Ticker σ) (a b : String)
    (hab : a ≠ b)
    (he : t.elapsedTime = .int e) (hc : t.currentTime = some (.int c))
    (hact : t.activeAnimations = [a, b])
    (hle : da ≤ db)
    (ha : ∃ ta sa, lookupTask a t = some ta ∧
          ta.loop (.int e) ta.state = ⟨.ok (.num (.int da)), sa, [a]⟩)
    (hb : ∃ tb sb, lookupTask b t = some tb ∧
          tb.loop (.int e) tb.state = ⟨.ok (.num (.int db)), sb, []⟩) :
    (moveForward now t).1 = .renderIn (.int da) ∧
    (moveForward now t).2.elapsedTime = .int (e + da) ∧
    (moveForward now t).2.activeAnimations = [b] := by
  have htick : tickInit now t = t := tickInit_of_some now t _ hc
  obtain ⟨ta, sa, hla, houta⟩ := ha
  obtain ⟨tb, sb, hlb, houtb⟩ := hb
  have hmema : a ∈ t.activeAnimations := by
    rw [hact]
    exact List.mem_cons_self a [b]
  have houta0 : ta.loop t.elapsedTime ta.state = ⟨.ok (.num (.int da)), sa, [a]⟩ := by
    rw [he]
    exact houta
  have hstep1 : stepIds [a, b] t []
      = stepIds [b] (applyStops [a] (updState a sa t)) [.num (.int da)] := by
    rw [stepIds_cons_ok a [b] t [] ta (.num (.int da)) sa [a] hmema hla houta0]
    rfl
  have ht1a : (applyStops [a] (updState a sa t)).activeAnimations = [b] := by
    rw [applyStops_cons]
    show t.activeAnimations.erase a = [b]
    rw [hact]
    exact List.erase_cons_head a [b]
  have ht1e : (applyStops [a] (updState a sa t)).elapsedTime = .int e := by
    rw [applyStops_elapsed]
    exact he
  have hlb1 : lookupTask b (applyStops [a] (updState a sa t)) = some tb := by
    rw [applyStops_lookup, updState_lookup_ne a sa t b hab]
    exact hlb
  have houtb1 : tb.loop (applyStops [a] (updState a sa t)).elapsedTime tb.state
      = ⟨.ok (.num (.int db)), sb, []⟩ := by
    rw [ht1e]
    exact houtb
  have hmemb : b ∈ (applyStops [a] (updState a sa t)).activeAnimations := by
    rw [ht1a]
    exact List.mem_cons_self b []
  have hstep2 : stepIds [b] (applyStops [a] (updState a sa t)) [.num (.int da)]
      = .done [.num (.int da), .num (.int db)]
          (updState b sb (applyStops [a] (updState a sa t))) := by
    rw [stepIds_cons_ok b [] (applyStops [a] (updState a sa t)) [.num (.int da)]
      tb (.num (.int db)) sb [] hmemb hlb1 houtb1]
    rfl
  have hsteps : stepIds (tickInit now t).activeAnimations (tickInit now t) []
      = .done [.num (.int da), .num (.int db)]
          (updState b sb (applyStops [a] (updState a sa t))) := by
    rw [htick, hact, hstep1, hstep2]
  have hmf := moveForward_eq_cons now t
    (updState b sb (applyStops [a] (updState a sa t)))
    (.num (.int da)) [.num (.int db)] hsteps
  have hmin : jsMinimum [JSVal.num (.int da), JSVal.num (.int db)] = .int da := by
    show jmin (.int da) (.int db) = .int da
    show JSNum.int (min da db) = .int da
    rw [min_eq_left hle]
  rw [hmin] at hmf
  refine ⟨by rw [hmf], ?_, ?_⟩
  · rw [hmf]
    show jadd (updState b sb (applyStops [a] (updState a sa t))).elapsedTime (.int da) = _
    show jadd (applyStops [a] (updState a sa t)).elapsedTime (.int da) = _
    rw [ht1e]
    rfl
  · rw [hmf]
    show (updState b sb (applyStops [a] (updState a sa t))).activeAnimations = [b]
    exact ht1a

/-- Ticker for the C9 witness: task "a" requests 50ms and stops itself;
task "b" requests 100ms. -/
def tC9 : Ticker Unit :=
  { animations := [("a", selfStopTask "a" 50), ("b", constTask 100)],
    activeAnimations := ["a", "b"], elapsedTime := .int 0,
    currentTime := some (.int 0), previewStartTime := none, initDate := 0 }

/-- Witness for C9: the self-stopped task's 50ms wins the minimum. -/
theorem self_stopping_task_counts_witness :
    (moveForward 0 tC9).1 = .renderIn (.int 50) ∧
    (moveForward 0 tC9).2.elapsedTime = .int (0 + 50) ∧
    (moveForward 0 tC9).2.activeAnimations = ["b"] :=
  self_stopping_task_counts 0 0 0 50 100 tC9 "a" "b" (by decide) rfl rfl rfl (by omega)
    ⟨selfStopTask "a" 50, (), rfl, rfl⟩ ⟨constTask 100, (), rfl, rfl⟩

/-- A tick never touches `previewStartTime`. -/
theorem moveForward_stamp (now : ℤ) (t : Ticker σ) :
    (moveForward now t).2.previewStartTime = t.previewStartTime := by
  have hfields := stepIds_fields (tickInit now t).activeAnimations (tickInit now t) []
  cases hs : stepIds (tickInit now t).activeAnimations (tickInit now t) [] with
  | crashed t1 =>
    rw [moveForward_eq_crash now t t1 hs]
    rw [hs] at hfields
    simp only [outTicker] at hfields
    exact hfields.2.2.trans (tickInit_stamp now t)
  | done times t1 =>
    cases times with
    | nil =>
      rw [moveForward_eq_nil now t t1 hs]
      rw [hs] at hfields
      simp only [outTicker] at hfields
      exact hfields.2.2.trans (tickInit_stamp now t)
    | cons v vs =>
      rw [moveForward_eq_cons now t t1 v vs hs]
      rw [hs] at hfields
      simp only [outTicker] at hfields
      show t1.previewStartTime = _
      exact hfields.2.2.trans (tickInit_stamp now t)

theorem setAdd_mem_self (x : String) (l : List String) : x ∈ setAdd x l := by
  unfold setAdd
  split
  · assumption
  · exact List.mem_append_right l (by simp)

theorem setAdd_mem_of (x y : String) (l : List String) (h : y ∈ l) : y ∈ setAdd x l := by
  unfold setAdd
  split
  · exact h
  · exact List.mem_append_left _ h

theorem foldl_setAdd_mono (ps : List (String × Animation σ)) (act : List String)
    (y : String) (h : y ∈ act) : y ∈ ps.foldl (fun a q => setAdd q.1 a) act := by
  induction ps generalizing act with
  | nil => exact h
  | cons p rest ih => exact ih (setAdd p.1 act) (setAdd_mem_of p.1 y act h)

theorem foldl_setAdd_mem (ps : List (String × Animation σ)) (act : List String)
    (p : String × Animation σ) (hp : p ∈ ps) :
    p.1 ∈ ps.foldl (fun a q => setAdd q.1 a) act := by
  induction ps generalizing act with
  | nil => cases hp
  | cons q rest ih =>
    rcases List.mem_cons.mp hp with heq | hmem
    · rw [heq]
      exact foldl_setAdd_mono rest (setAdd q.1 act) q.1 (setAdd_mem_self q.1 act)
    · exact ih (setAdd q.1 act) hmem

/-- `replayCore` reactivates at least every registered id. -/
theorem replayCore_active_ne (t : Ticker σ) (hne : t.animations ≠ []) :
    (replayCore t).activeAnimations ≠ [] := by
  obtain ⟨p, ps, hl⟩ := List.exists_cons_of_ne_nil hne
  have hp : p ∈ t.animations := by
    rw [hl]
    exact List.mem_cons_self p ps
  exact List.ne_nil_of_mem
    (foldl_setAdd_mem t.animations t.activeAnimations p hp)

/-- One `previewLoop` iteration on a non-empty active set keeps the
preview stamp (the resynchronisation and the tick do not clear it). -/
theorem previewLoop_fst_stamp (now : ℤ) (t : Ticker σ) (h : ¬ t.activeAnimations = []) :
    (previewLoop now t).1.previewStartTime = t.previewStartTime := by
  unfold previewLoop
  rw [if_neg h]
  show (moveForward now (previewResync now t)).2.previewStartTime = _
  rw [moveForward_stamp]
  rfl

/-- `startPreview` from a cleared stamp re-enters the loop with the
stamp set to the current wall time. -/
theorem startPreview_none_stamp (now : ℤ) (t : Ticker σ)
    (hstamp : t.previewStartTime = none)
    (hact : ¬ t.activeAnimations = []) :
    (startPreview now t).1.previewStartTime = some now := by
  unfold startPreview
  rw [hstamp]
  exact previewLoop_fst_stamp now { t with previewStartTime := some now } hact

/-- Claim C6: `replayPreview` cancels the pending wake (the trace starts
with `clearTimeout`), sets `elapsedTime` to 0, clears the preview start
stamp, applies `reset` exactly once to every task still in the registry
(previously stopped ones included, tasks without a reset skipped by
`applyReset`), re-adds every registered id to the active set, and
restarts the realtime loop (re-entering it with the stamp set to now). -/
theorem replayPreview_resets_and_restarts (now : ℤ) (t : Ticker σ)
    (hne : t.animations ≠ []) :
    (replayCore t).elapsedTime = .int 0 ∧
    (replayCore t).previewStartTime = none ∧
    (replayCore t).animations = t.animations.map (fun p => (p.1, applyReset p.2)) ∧
    (∀ p ∈ t.animations, p.1 ∈ (replayCore t).activeAnimations) ∧
    (replayPreview now t).2.head? = some Eff.clearTimeout ∧
    (replayPreview now t).1.previewStartTime = some now := by
  refine ⟨rfl, rfl, rfl, ?_, rfl, ?_⟩
  · intro p hp
    exact foldl_setAdd_mem t.animations t.activeAnimations p hp
  · show (startPreview now (replayCore t)).1.previewStartTime = some now
    exact startPreview_none_stamp now (replayCore t) rfl (replayCore_active_ne t hne)

/-- A previously stopped task whose reset callback counts its
invocations in the closure state. -/
def resetTask : Animation ℕ :=
  { loop := fun _ s => ⟨.ok (.num (.int 20)), s, []⟩,
    reset := some (fun s => s + 1), metadata := [], state := 0 }

/-- Ticker for the C6 witness: one registered but stopped task, mid-run
clock. -/
def tC6 : Ticker ℕ :=
  { animations := [("a", resetTask)], activeAnimations := [],
    elapsedTime := .int 40, currentTime := some (.int 40),
    previewStartTime := none, initDate := 0 }

/-- Witness for C6 at a ticker whose only task had been stopped. -/
theorem replayPreview_resets_and_restarts_witness :
    (replayCore tC6).elapsedTime = .int 0 ∧
    (replayCore tC6).previewStartTime = none ∧
    (replayCore tC6).animations = tC6.animations.map (fun p => (p.1, applyReset p.2)) ∧
    (∀ p ∈ tC6.animations, p.1 ∈ (replayCore tC6).activeAnimations) ∧
    (replayPreview 0 tC6).2.head? = some Eff.clearTimeout ∧
    (replayPreview 0 tC6).1.previewStartTime = some 0 :=
  replayPreview_resets_and_restarts 0 tC6 (List.cons_ne_nil _ _)
